import Mathlib

/-!
# Verification of the rm-mcp sync core (cache / index / protocol client)

Shallow embedding of the cache and index layer of the rm-mcp repository:

* `rm_mcp/cache.py` — the volatile collection cache (`get_cached_collection`),
  the extraction-result cache (`get_cached_ocr_result`, `cache_ocr_result`)
  and the per-page OCR cache (`cache_page_ocr`) with their FIFO size caps;
* `rm_mcp/index.py` — the persistent SQLite FTS5 index (`DocumentIndex`):
  `upsert_document`, `get_document_hash`, `needs_reindex`, `upsert_page`,
  `get_page_ocr`, `store_extraction_result`, `search`;
* `rm_mcp/clients/cloud.py` — `RemarkableClient.get_root_hash` and
  `RemarkableClient._parse_index`.

Modelling conventions:
* wall-clock time (`time.time()`) is an integer parameter `now`; timestamps
  stored by the code are integers;
* Python dictionaries are insertion-ordered association lists
  (`List (κ × α)`): updating an existing key keeps its position, inserting a
  new key appends, `list(d.keys())[:excess]` is the first `excess` keys;
* SQLite tables are lists of row structures; the implicit `rowid` of the
  `pages` table is made explicit, and fresh rowids are drawn from a
  monotone counter `nextRowid` (all live rowids stay below the counter,
  which matches SQLite allocating a rowid larger than every live one);
* remote calls are counted explicitly so that the request-budget claims
  ("zero remote requests", "exactly one request") are provable.
-/

deriving instance DecidableEq for Except

namespace RMmcp

/-! ## Collection cache (`rm_mcp/cache.py`, module-level collection section)

The cached collection is a list of opaque document values; only identity
matters to the cache, so documents are modelled as strings. -/

/-- A document collection as returned by `client.get_meta_items()`. -/
abbrev Collection := List String

/-- The module-level mutable state `_cached_collection`, `_cached_root_hash`,
`_cache_timestamp` of `rm_mcp/cache.py`. -/
structure CacheState where
  cachedCollection : Option Collection
  cachedRootHash : Option String
  cacheTimestamp : Int
  deriving DecidableEq

/-- The client seen by `get_cached_collection`: whether it has a
`get_root_hash` attribute (cloud mode), the outcome of calling
`get_root_hash()` (`.error` models a raised exception), and the collection
returned by `get_meta_items(root_hash=...)` as a function of the optional
`root_hash` argument. -/
structure Client where
  hasGetRootHash : Bool
  rootHash : Except Unit String
  metaItems : Option String → Collection

/-- Result of one `get_cached_collection()` call: the new module state, the
returned collection, and how many remote requests of each kind were issued
(`get_root_hash` probes and `get_meta_items` full fetches). -/
structure FetchOutcome where
  state : CacheState
  ret : Collection
  rootHashCalls : Nat
  metaItemsCalls : Nat
  deriving DecidableEq

/-- `get_cached_collection()` from `rm_mcp/cache.py` (lines 31-89), for an
authenticated client. `ttl` is `_CACHE_TTL_SECONDS` (default 60), `now` the
value of `time.time()` during the call. -/
def get_cached_collection (client : Client) (ttl : Int) (now : Int)
    (s : CacheState) : FetchOutcome :=
  -- If we have a valid cache within TTL, return immediately
  if h : s.cachedCollection.isSome ∧ now - s.cacheTimestamp < ttl then
    ⟨s, s.cachedCollection.get h.1, 0, 0⟩
  -- Check if client supports root hash (for change detection)
  else if client.hasGetRootHash = false then
    let collection := client.metaItems none
    ⟨{ s with cachedCollection := some collection, cacheTimestamp := now },
      collection, 0, 1⟩
  else
    -- Cloud mode: check root hash to see if anything changed
    match client.rootHash with
    | .error _ =>
      -- If root hash fetch fails, do a full re-fetch
      let collection := client.metaItems none
      ⟨{ s with cachedCollection := some collection, cacheTimestamp := now },
        collection, 1, 1⟩
    | .ok currentHash =>
      match s.cachedCollection with
      | some coll =>
        if s.cachedRootHash = some currentHash then
          -- Nothing changed, refresh timestamp
          ⟨{ s with cacheTimestamp := now }, coll, 1, 0⟩
        else
          -- Root hash changed — full re-fetch
          let collection := client.metaItems (some currentHash)
          ⟨{ s with
              cachedCollection := some collection
              cachedRootHash := some currentHash
              cacheTimestamp := now },
            collection, 1, 1⟩
      | none =>
        -- No cache — full re-fetch
        let collection := client.metaItems (some currentHash)
        ⟨{ s with
            cachedCollection := some collection
            cachedRootHash := some currentHash
            cacheTimestamp := now },
          collection, 1, 1⟩

/-! ## Extraction-result and page-OCR caches (`rm_mcp/cache.py`, lines 131-330)

Python dictionaries preserve insertion order; they are modelled as
association lists where updating an existing key keeps its position and a
new key is appended at the end. -/

/-- Insertion-ordered dictionary update (Python `d[k] = v`). -/
def dictInsert {κ α : Type} [BEq κ] (d : List (κ × α)) (k : κ) (v : α) :
    List (κ × α) :=
  if d.any (fun p => p.1 == k) then
    d.map (fun p => if p.1 == k then (k, v) else p)
  else
    d ++ [(k, v)]

/-- Python `d.get(k)` / `d[k]` lookup on an insertion-ordered dict. -/
def dictGet {κ α : Type} [BEq κ] (d : List (κ × α)) (k : κ) : Option α :=
  (d.find? (fun p => p.1 == k)).map (fun p => p.2)

/-- An extraction result dict as produced by the extraction layer and stored
by `cache_ocr_result` / `store_extraction_result`; only the keys the index
and cache read are modelled (`typed_text`, `highlights`, `handwritten_text`,
`ocr_backend`). -/
structure ExtractionResult where
  typed_text : List String
  highlights : List String
  handwritten_text : List String
  ocr_backend : Option String
  deriving DecidableEq

/-- One `_extraction_cache` entry:
`\x7b"result": ..., "include_ocr": bool, "timestamp": float\x7d`.
The code always writes a timestamp, so the model makes it mandatory; the
`"timestamp" not in cached` guard of `_is_cache_valid` is unreachable for
entries written by `cache_ocr_result`. -/
structure ExtractionCacheEntry where
  result : ExtractionResult
  include_ocr : Bool
  timestamp : Int
  deriving DecidableEq

/-- `EXTRACTION_CACHE_TTL_SECONDS = 300`. -/
def EXTRACTION_CACHE_TTL_SECONDS : Int := 300

/-- `_is_cache_valid(cached)` from `rm_mcp/cache.py` (lines 153-157). -/
def is_cache_valid (now : Int) (timestamp : Int) : Bool :=
  now - timestamp < EXTRACTION_CACHE_TTL_SECONDS

/-- The `_extraction_cache` dict, keyed by doc id. -/
abbrev ExtractionCache := List (String × ExtractionCacheEntry)

/-- `get_cached_ocr_result(doc_id, include_ocr, ocr_backend)` from
`rm_mcp/cache.py` (lines 267-293): L1 lookup of a full-document extraction
result. -/
def get_cached_ocr_result (now : Int) (cache : ExtractionCache)
    (doc_id : String) (include_ocr : Bool) (ocr_backend : Option String) :
    Option ExtractionResult :=
  match dictGet cache doc_id with
  | none => none
  | some cached =>
    if (cached.include_ocr || !include_ocr) && is_cache_valid now cached.timestamp then
      match ocr_backend with
      | some b =>
        if cached.result.ocr_backend ≠ some b then none else some cached.result
      | none => some cached.result
    else none

/-- `_MAX_PAGE_OCR_CACHE_SIZE = 200` (the page-level volatile cap). -/
def MAX_PAGE_OCR_CACHE_SIZE : Nat := 200

/-- One `_page_ocr_cache` entry: `\x7b"text": str, "timestamp": float\x7d`. -/
structure PageOcrEntry where
  text : String
  timestamp : Int
  deriving DecidableEq

/-- The `_page_ocr_cache` dict, keyed by `(doc_id, page, backend)`. -/
abbrev PageOcrCache := List ((String × Int × String) × PageOcrEntry)

/-- The L1 part of `cache_page_ocr(doc_id, page, backend, text)` from
`rm_mcp/cache.py` (lines 228-254): insert the entry, then trim the
oldest-inserted keys down to the cap `maxSize` (`_MAX_PAGE_OCR_CACHE_SIZE`).
The L2 write-through (`index.upsert_page`) is `DocumentIndex.upsert_page`
below; its failure is swallowed and does not affect the L1 state. -/
def cache_page_ocr (maxSize : Nat) (now : Int) (d : PageOcrCache)
    (doc_id : String) (page : Int) (backend : String) (text : String) :
    PageOcrCache :=
  let d1 := dictInsert d (doc_id, page, backend) ⟨text, now⟩
  if d1.length > maxSize then
    d1.drop (d1.length - maxSize)
  else
    d1

/-! ## Persistent index (`rm_mcp/index.py`, class `DocumentIndex`)

The SQLite tables `documents`, `pages` and `pages_fts` are lists of rows.
The implicit SQLite `rowid` of `pages` (the key of `pages_fts`) is explicit;
`ON CONFLICT ... DO UPDATE` keeps the rowid of the updated row, a plain
insert allocates a fresh one. The `indexed_at` ISO timestamp is an opaque
string parameter `now`. -/

/-- A row of the `documents` table. All columns except the primary key are
nullable. -/
structure DocRow where
  doc_id : String
  doc_hash : Option String
  name : Option String
  path : Option String
  file_type : Option String
  modified_at : Option String
  page_count : Option Int
  indexed_at : String
  deriving DecidableEq

/-- A row of the `pages` table, with its SQLite rowid made explicit.
Primary key: `(doc_id, page_number, content_type)`. -/
structure PageRow where
  rowid : Nat
  doc_id : String
  page_number : Int
  content_type : String
  content : String
  ocr_backend : Option String
  indexed_at : String
  deriving DecidableEq

/-- A row of the FTS5 table `pages_fts`, keyed by the rowid of the `pages`
row it projects. -/
structure FtsRow where
  rowid : Nat
  doc_id : String
  content : String
  deriving DecidableEq

/-- The state of one `DocumentIndex` database. `nextRowid` is the source of
fresh `pages` rowids; every live rowid is below it. -/
structure IndexState where
  documents : List DocRow
  pages : List PageRow
  pages_fts : List FtsRow
  nextRowid : Nat
  deriving DecidableEq

/-- The empty database, as created by `_SCHEMA_SQL`. -/
def IndexState.empty : IndexState := ⟨[], [], [], 0⟩

/-- `DocumentIndex.upsert_document` (lines 166-194): insert-or-update with
`COALESCE(excluded.col, documents.col)` semantics — an omitted (`None`)
argument preserves the stored value; `indexed_at` is always refreshed. -/
def upsert_document (s : IndexState) (doc_id : String)
    (doc_hash name path file_type modified_at : Option String)
    (page_count : Option Int) (now : String) : IndexState :=
  if s.documents.any (fun r => r.doc_id == doc_id) then
    { s with
        documents := s.documents.map (fun r =>
          if r.doc_id == doc_id then
            { r with
                doc_hash := doc_hash <|> r.doc_hash
                name := name <|> r.name
                path := path <|> r.path
                file_type := file_type <|> r.file_type
                modified_at := modified_at <|> r.modified_at
                page_count := page_count <|> r.page_count
                indexed_at := now }
          else r) }
  else
    { s with
        documents := s.documents ++
          [⟨doc_id, doc_hash, name, path, file_type, modified_at, page_count, now⟩] }

/-- `DocumentIndex.get_document_hash` (lines 196-202): `None` both when no
row exists and when the stored `doc_hash` column is NULL. -/
def get_document_hash (s : IndexState) (doc_id : String) : Option String :=
  (s.documents.find? (fun r => r.doc_id == doc_id)).bind (fun r => r.doc_hash)

/-- `DocumentIndex.needs_reindex` (lines 204-226). On a hash mismatch the
FTS rows whose rowid belongs to one of the document's pages are deleted
first (`DELETE FROM pages_fts WHERE rowid IN (SELECT rowid FROM pages WHERE
doc_id = ?)`), then the page rows themselves. Returns the boolean result
together with the updated database. -/
def needs_reindex (s : IndexState) (doc_id : String) (current_hash : String) :
    Bool × IndexState :=
  match get_document_hash s doc_id with
  | none => (true, s)
  | some stored_hash =>
    if stored_hash ≠ current_hash then
      -- Hash changed — clear stale pages and FTS entries
      (true,
        { s with
            pages_fts := s.pages_fts.filter (fun e =>
              !(s.pages.any (fun p => p.doc_id == doc_id && p.rowid == e.rowid)))
            pages := s.pages.filter (fun p => p.doc_id != doc_id) })
    else
      (false, s)

/-- The `pages` primary-key predicate used by `upsert_page` and
`store_extraction_result` row lookups. -/
def pageKeyMatch (doc_id : String) (page_number : Int) (content_type : String)
    (p : PageRow) : Bool :=
  p.doc_id == doc_id && p.page_number == page_number && p.content_type == content_type

/-- `DocumentIndex.upsert_page` (lines 232-280): look up the existing row
for the key; if found, delete its `pages_fts` entry; upsert the row
(`ON CONFLICT DO UPDATE` keeps the rowid); re-select the row by key and
insert its new FTS projection. The loop body of
`DocumentIndex.store_extraction_result` (lines 332-365) performs these
identical statements per part and is modelled by folding this function. -/
def upsert_page (s : IndexState) (doc_id : String) (page_number : Int)
    (content : String) (content_type : String) (ocr_backend : Option String)
    (now : String) : IndexState :=
  match s.pages.find? (pageKeyMatch doc_id page_number content_type) with
  | some existing =>
    -- Delete old FTS entry, update the row in place, insert the new entry
    { s with
        pages := s.pages.map (fun p =>
          if pageKeyMatch doc_id page_number content_type p then
            { p with
                content := content
                ocr_backend := ocr_backend
                indexed_at := now }
          else p)
        pages_fts :=
          s.pages_fts.filter (fun e => e.rowid != existing.rowid) ++
            [⟨existing.rowid, doc_id, content⟩] }
  | none =>
    { s with
        pages := s.pages ++
          [⟨s.nextRowid, doc_id, page_number, content_type, content, ocr_backend, now⟩]
        pages_fts := s.pages_fts ++ [⟨s.nextRowid, doc_id, content⟩]
        nextRowid := s.nextRowid + 1 }

/-- `DocumentIndex.get_page_ocr` (lines 282-295): content of the `ocr` row
for the page whose backend matches the argument or is NULL. -/
def get_page_ocr (s : IndexState) (doc_id : String) (page_number : Int)
    (backend : String) : Option String :=
  (s.pages.find? (fun p =>
      p.doc_id == doc_id && p.page_number == page_number &&
      p.content_type == "ocr" &&
      (p.ocr_backend == some backend || p.ocr_backend == none))).map
    (fun p => p.content)

/-- `DocumentIndex.store_extraction_result` (lines 297-367): one part per
non-empty content category, each written with the same delete-FTS /
upsert-row / insert-FTS statements as `upsert_page`, all in one
transaction. Parts: `(page_number, content_type, content, ocr_backend)`. -/
def extraction_parts (result : ExtractionResult) :
    List (Int × String × String × Option String) :=
  (if result.typed_text.isEmpty then []
   else [(0, "typed_text", String.intercalate "\n\n" result.typed_text, none)]) ++
  (if result.highlights.isEmpty then []
   else [(0, "highlight", String.intercalate "\n\n" result.highlights, none)]) ++
  (if result.handwritten_text.isEmpty then []
   else [(0, "ocr", String.intercalate "\n\n" result.handwritten_text,
          result.ocr_backend)])

/-- `DocumentIndex.store_extraction_result` itself. -/
def store_extraction_result (s : IndexState) (doc_id : String)
    (result : ExtractionResult) (now : String) : IndexState :=
  let parts := extraction_parts result
  if parts.isEmpty then s
  else
    parts.foldl (fun st part =>
      upsert_page st doc_id part.1 part.2.2.1 part.2.1 part.2.2.2 now) s

/-! ## Full-text search (`DocumentIndex.search`, lines 373-421)

The SQL query (FTS5 `MATCH`, `ORDER BY rank`, `LIMIT ?`) is modelled by its
result: `ranked` is the full rank-ordered list of matching joined rows, and
the `LIMIT fetch_limit` clause truncates it to the first `limit * 5`
candidates. The Python-side deduplication loop is translated literally.
An invalid FTS5 query (`sqlite3.OperationalError`) returns `[]` in the
code; only the valid-query path is modelled. -/

/-- One row of the search query result
(`doc_id, name, path, file_type, modified_at, snippet, rank`). -/
structure SearchRow where
  doc_id : String
  name : Option String
  path : Option String
  file_type : Option String
  modified_at : Option String
  snippet : String
  rank : Int
  deriving DecidableEq

/-- The dedup loop of `DocumentIndex.search` (lines 411-421): walk the
candidate rows in rank order, keep the first row per unseen `doc_id`, stop
as soon as `limit` results are collected. -/
def searchDedupLoop (limit : Nat) : List SearchRow → List String →
    List SearchRow → List SearchRow
  | [], _, results => results
  | row :: rest, seen, results =>
    if seen.contains row.doc_id then
      searchDedupLoop limit rest seen results
    else
      let results := results ++ [row]
      if results.length ≥ limit then results
      else searchDedupLoop limit rest (row.doc_id :: seen) results

/-- `DocumentIndex.search(query, limit)` as a function of the ranked rows
the SQL query matches: fetch at most `fetch_limit = limit * 5` candidates,
then deduplicate by `doc_id`. -/
def search (ranked : List SearchRow) (limit : Nat) : List SearchRow :=
  let fetch_limit := limit * 5
  let rows := ranked.take fetch_limit
  searchDedupLoop limit rows [] []

/-! ## Protocol client (`rm_mcp/clients/cloud.py`)

Python string primitives (`str.strip`, `str.split` with an explicit
separator) are modelled character-by-character so that every definition
reduces inside the kernel. -/

/-- Python `str.strip()`: remove leading and trailing whitespace. -/
def pyStrip (s : String) : String :=
  String.mk (((s.toList.dropWhile Char.isWhitespace).reverse.dropWhile
    Char.isWhitespace).reverse)

/-- Python `str.split(sep)` for a one-character separator, on a character
list: splitting the empty string yields `[""]`, adjacent separators yield
empty fields. -/
def splitOnChar (sep : Char) : List Char → List (List Char)
  | [] => [[]]
  | c :: rest =>
    match splitOnChar sep rest with
    | [] => [[]]
    | grp :: grps => if c == sep then [] :: grp :: grps else (c :: grp) :: grps

/-- Python `str.split(sep)` for a one-character separator. -/
def pySplit (s : String) (sep : Char) : List String :=
  (splitOnChar sep s.toList).map String.mk

/-- Model of Python `int(s)` on a string field: surrounding whitespace is
stripped, an optional single sign is allowed, and the rest must be one or
more digits. (Python additionally accepts underscore digit separators and
non-ASCII digits; none of the claims depends on those.) -/
def pyInt (s : String) : Option Int :=
  let t := (pyStrip s).toList
  let (neg, digits) :=
    match t with
    | '-' :: rest => (true, rest)
    | '+' :: rest => (false, rest)
    | _ => (false, t)
  if digits.isEmpty || !digits.all Char.isDigit then none
  else
    let mag : Nat := digits.foldl (fun acc c => acc * 10 + (c.toNat - 48)) 0
    some (if neg then -(mag : Int) else (mag : Int))

/-- One parsed line of a content-addressed index file
(`hash:type:id:subfiles:size`). -/
structure RemoteIndexEntry where
  hash : String
  type : String
  id : String
  subfiles : Int
  size : Int
  deriving DecidableEq

/-- The body of the per-line `try` block of `RemarkableClient._parse_index`
(lines 120-133): split on `:`; if at least 5 fields, build the entry. The
`int(...)` conversions may raise `ValueError`, which the `except` clause
turns into dropping the line. -/
def parseIndexLine (line : String) : Option RemoteIndexEntry :=
  let parts := pySplit line ':'
  if parts.length ≥ 5 then
    match pyInt (parts.getD 3 ""), pyInt (parts.getD 4 "") with
    | some subfiles, some size =>
      some ⟨parts.getD 0 "", parts.getD 1 "", parts.getD 2 "", subfiles, size⟩
    | _, _ => none
  else none

/-- `RemarkableClient._parse_index(content)` (lines 113-135): decode, strip,
split into lines, skip the first line (schema version), and keep the
well-formed lines. Malformed lines are logged and dropped, never fatal. -/
def parse_index (content : String) : List RemoteIndexEntry :=
  let lines := pySplit (pyStrip content) '\n'
  (lines.drop 1).filterMap parseIndexLine

/-- The outcome of `response.json()` on the root response: a decode error,
or a parsed JSON object whose fields are modelled as a string-valued map
(only the `"hash"` field is ever read). -/
inductive RootJson where
  | decodeError
  | object (fields : List (String × String))
  deriving DecidableEq

/-- The three `RuntimeError` messages `get_root_hash` can raise (the
dynamic tails of the second and third message are elided). -/
def emptyResponseMsg : String :=
  "Empty response from reMarkable API. Your token may have expired.\nRe-authenticate by running: uvx rm-mcp --setup"

/-- Message for a JSON decode failure. -/
def invalidJsonMsg : String :=
  "Invalid JSON from reMarkable API"

/-- Message for a parsed object with no `hash` field. -/
def missingHashMsg : String :=
  "Unexpected API response format. The reMarkable API may have changed."

/-- Whether `needle` occurs as a leading segment of `hay`. -/
def leadsWith : List Char → List Char → Bool
  | [], _ => true
  | _ :: _, [] => false
  | a :: as, b :: bs => a == b && leadsWith as bs

/-- Whether `needle` occurs contiguously anywhere in `hay`. -/
def containsChars (needle : List Char) : List Char → Bool
  | [] => needle.isEmpty
  | c :: rest => leadsWith needle (c :: rest) || containsChars needle rest

/-- Whether a message mentions credential expiry. -/
def mentionsExpiry (msg : String) : Bool :=
  containsChars "expired".toList msg.toList

/-- `RemarkableClient.get_root_hash` (lines 137-170), after a successful
HTTP round-trip (`raise_for_status` passed): `text` is `response.text` and
`json` the outcome of `response.json()`. A raised `RuntimeError` is the
`.error` case carrying its message. -/
def get_root_hash (text : String) (json : RootJson) : Except String String :=
  -- `if not response.text or not response.text.strip():`
  if pyStrip text = "" then
    .error emptyResponseMsg
  else
    match json with
    | .decodeError => .error invalidJsonMsg
    | .object fields =>
      match fields.find? (fun kv => kv.1 == "hash") with
      | none => .error missingHashMsg
      | some kv => .ok kv.2

/-! ## Derived notions used by the theorems -/

/-- The primary key of a `pages` row. -/
def pageKey (p : PageRow) : String × Int × String :=
  (p.doc_id, p.page_number, p.content_type)

/-- The pages/FTS consistency invariant of the index database:
the `pages` table has at most one row per key and per rowid, live rowids
stay below the fresh-rowid counter, and `pages_fts` holds exactly one entry
per `pages` row — keyed by that row's rowid, carrying its current
`doc_id`/`content` — and nothing else. -/
def IndexInv (s : IndexState) : Prop :=
  s.pages.Pairwise (fun a b => pageKey a ≠ pageKey b) ∧
  s.pages.Pairwise (fun a b => a.rowid ≠ b.rowid) ∧
  (∀ p ∈ s.pages, p.rowid < s.nextRowid) ∧
  (∀ p ∈ s.pages, ∃ e ∈ s.pages_fts,
    e.rowid = p.rowid ∧ e.doc_id = p.doc_id ∧ e.content = p.content) ∧
  (∀ e ∈ s.pages_fts, ∃ p ∈ s.pages,
    p.rowid = e.rowid ∧ e.doc_id = p.doc_id ∧ e.content = p.content) ∧
  s.pages_fts.Pairwise (fun a b => a.rowid ≠ b.rowid)

instance (s : IndexState) : Decidable (IndexInv s) := by
  unfold IndexInv
  infer_instance

/-- A write operation against the page/FTS tables. -/
inductive IndexOp where
  | upsertPage (doc_id : String) (page_number : Int)
      (content content_type : String) (ocr_backend : Option String)
      (now : String)
  | storeExtraction (doc_id : String) (result : ExtractionResult) (now : String)

/-- Apply one write operation. -/
def applyIndexOp (s : IndexState) : IndexOp → IndexState
  | .upsertPage d pn c ct be now => upsert_page s d pn c ct be now
  | .storeExtraction d r now => store_extraction_result s d r now

/-- One `cache_page_ocr` call: `(key, text, now)` with
`key = (doc_id, page, backend)`. -/
abbrev PageInsert : Type := (String × Int × String) × String × Int

/-- Run a sequence of `cache_page_ocr` calls against an initially empty
page cache. -/
def runPageCache (maxSize : Nat) (inserts : List PageInsert) : PageOcrCache :=
  inserts.foldl (fun d ins =>
    cache_page_ocr maxSize ins.2.2 d ins.1.1 ins.1.2.1 ins.1.2.2 ins.2.1) []

/-- The cache entries a sequence of inserts would produce with no cap. -/
def pageEntriesOf (inserts : List PageInsert) : PageOcrCache :=
  inserts.map (fun ins => (ins.1, ⟨ins.2.1, ins.2.2⟩))

/-- Sixty distinct-key page inserts (the spec's eviction instance). -/
def insts60 : List PageInsert :=
  (List.range 60).map (fun n => (("d", (n : Int), "b"), ("txt", (0 : Int))))

/-- The database of the spec's re-index invalidation scenario:
`upsert_document(doc_id="doc-1", hash="h1")` followed by
`upsert_page("doc-1", 1, "old", "typed_text")`. -/
def reindexScenarioState : IndexState :=
  upsert_page
    (upsert_document IndexState.empty "doc-1" (some "h1")
      none none none none none "t0")
    "doc-1" 1 "old" "typed_text" none "t1"

/-! ## Theorems -/

/-! Helper lemmas about the FIFO trim of the page-OCR cache. -/

theorem dictInsert_fresh {κ α : Type} [BEq κ] [LawfulBEq κ]
    (d : List (κ × α)) (k : κ) (v : α) (h : k ∉ d.map Prod.fst) :
    dictInsert d k v = d ++ [(k, v)] := by
  unfold dictInsert
  have hany : d.any (fun p => p.1 == k) = false := by
    rw [List.any_eq_false]
    intro x hx hbeq
    rw [beq_iff_eq] at hbeq
    exact h (hbeq ▸ List.mem_map_of_mem Prod.fst hx)
  rw [if_neg (by simp [hany])]

theorem drop_append_trim {α : Type} (E : List α) (e : α) (c : Nat) :
    (E.drop (E.length - min E.length c) ++ [e]).drop
      ((min E.length c + 1) - min (min E.length c + 1) c) =
    (E ++ [e]).drop ((E.length + 1) - min (E.length + 1) c) := by
  rcases Nat.lt_or_ge E.length c with h | h
  · have h1 : E.length - min E.length c = 0 := by omega
    have h2 : (min E.length c + 1) - min (min E.length c + 1) c = 0 := by omega
    have h3 : (E.length + 1) - min (E.length + 1) c = 0 := by omega
    rw [h1, h2, h3]
    simp
  · have h1 : E.length - min E.length c = E.length - c := by omega
    have h2 : (min E.length c + 1) - min (min E.length c + 1) c = 1 := by omega
    rw [h1, h2, List.drop_append_eq_append_drop, List.drop_append_eq_append_drop,
      List.drop_drop]
    have e1 : E.length - c + 1 = E.length + 1 - min (E.length + 1) c := by omega
    have e2 : 1 - (E.drop (E.length - c)).length =
        E.length + 1 - min (E.length + 1) c - E.length := by
      rw [List.length_drop]
      omega
    rw [e1, e2]

theorem cache_page_ocr_fresh (maxSize : Nat) (now : Int) (d : PageOcrCache)
    (doc : String) (page : Int) (backend text : String)
    (h : (doc, page, backend) ∉ d.map Prod.fst) :
    cache_page_ocr maxSize now d doc page backend text =
      (d ++ [((doc, page, backend), (⟨text, now⟩ : PageOcrEntry))]).drop
        ((d.length + 1) - min (d.length + 1) maxSize) := by
  unfold cache_page_ocr
  rw [dictInsert_fresh d _ _ h]
  by_cases hgt : (d ++ [((doc, page, backend), (⟨text, now⟩ : PageOcrEntry))]).length > maxSize
  · rw [if_pos hgt]
    congr 1
    simp only [List.length_append, List.length_singleton] at hgt ⊢
    omega
  · rw [if_neg hgt]
    have h0 : (d.length + 1) - min (d.length + 1) maxSize = 0 := by
      simp only [List.length_append, List.length_singleton] at hgt
      omega
    rw [h0, List.drop_zero]

theorem pageEntriesOf_keys (l : List PageInsert) :
    (pageEntriesOf l).map Prod.fst = l.map Prod.fst := by
  simp only [pageEntriesOf, List.map_map]
  rfl

theorem runPageCache_fifo (maxSize : Nat) (inserts : List PageInsert)
    (h : (inserts.map Prod.fst).Nodup) :
    runPageCache maxSize inserts =
      (pageEntriesOf inserts).drop
        (inserts.length - min inserts.length maxSize) := by
  induction inserts using List.reverseRecOn with
  | nil => simp [runPageCache, pageEntriesOf]
  | append_singleton l i ih =>
    obtain ⟨⟨d0, p0, b0⟩, t0, n0⟩ := i
    rw [List.map_append, List.nodup_append] at h
    obtain ⟨h1, _, hdisj⟩ := h
    have hfresh : (d0, p0, b0) ∉ (runPageCache maxSize l).map Prod.fst := by
      rw [ih h1]
      intro hmem
      rcases List.mem_map.1 hmem with ⟨p, hp, hfst⟩
      have hpE : p ∈ pageEntriesOf l := List.drop_subset _ _ hp
      have hmem2 : (d0, p0, b0) ∈ (pageEntriesOf l).map Prod.fst :=
        hfst ▸ List.mem_map_of_mem Prod.fst hpE
      rw [pageEntriesOf_keys] at hmem2
      exact hdisj hmem2 (by simp)
    have hstep : runPageCache maxSize (l ++ [((d0, p0, b0), t0, n0)]) =
        cache_page_ocr maxSize n0 (runPageCache maxSize l) d0 p0 b0 t0 := by
      simp [runPageCache, List.foldl_append]
    have hEl : (pageEntriesOf l).length = l.length := by
      simp [pageEntriesOf]
    have hrl : (runPageCache maxSize l).length = min l.length maxSize := by
      rw [ih h1, List.length_drop, hEl]
      omega
    rw [hstep, cache_page_ocr_fresh _ _ _ _ _ _ _ hfresh, hrl, ih h1]
    have hEapp : pageEntriesOf (l ++ [((d0, p0, b0), t0, n0)]) =
        pageEntriesOf l ++ [((d0, p0, b0), ⟨t0, n0⟩)] := by
      simp [pageEntriesOf]
    have hlen2 : (l ++ [((d0, p0, b0), t0, n0)]).length = l.length + 1 := by
      simp
    rw [hEapp, hlen2]
    have hgoal := drop_append_trim (pageEntriesOf l)
      (((d0, p0, b0), ⟨t0, n0⟩) : (String × Int × String) × PageOcrEntry)
      maxSize
    rw [hEl] at hgoal
    exact hgoal

/-- C9. The page-OCR cache never exceeds its cap after a `cache_page_ocr`
call; inserting a sequence of distinct keys into an empty cache leaves
exactly the most-recently-inserted `min n cap` entries, in insertion order
(FIFO eviction of the oldest-inserted entries); in the spec's instance, 60
distinct inserts into a cache capped at 50 leave exactly the 50 most recent
entries. -/
theorem page_cache_eviction :
    (∀ (maxSize : Nat) (now : Int) (d : PageOcrCache) (doc : String)
        (page : Int) (backend text : String),
      (cache_page_ocr maxSize now d doc page backend text).length ≤ maxSize) ∧
    (∀ (maxSize : Nat) (inserts : List PageInsert),
      (inserts.map Prod.fst).Nodup →
      runPageCache maxSize inserts =
        (pageEntriesOf inserts).drop
          (inserts.length - min inserts.length maxSize)) ∧
    runPageCache 50 insts60 = (pageEntriesOf insts60).drop 10 ∧
    (runPageCache 50 insts60).length = 50 := by
  have hnodup : (insts60.map Prod.fst).Nodup := by decide
  have h60 := runPageCache_fifo 50 insts60 hnodup
  have hlen : insts60.length = 60 := by decide
  rw [hlen] at h60
  norm_num at h60
  refine ⟨?_, runPageCache_fifo, h60, ?_⟩
  · intro maxSize now d doc page backend text
    unfold cache_page_ocr
    by_cases hgt :
        (dictInsert d (doc, page, backend) ⟨text, now⟩).length > maxSize
    · rw [if_pos hgt, List.length_drop]
      omega
    · rw [if_neg hgt]
      omega
  · rw [h60, List.length_drop]
    have hpe : (pageEntriesOf insts60).length = 60 := by decide
    omega

/-- Witness for C9: three distinct-key inserts into a cache capped at 2
evict exactly the oldest entry. -/
theorem page_cache_eviction_witness :
    runPageCache 2 [(("a", 1, "b"), "t", 0), (("a", 2, "b"), "u", 0),
        (("a", 3, "b"), "v", 0)] =
      [(("a", 2, "b"), ⟨"u", 0⟩), (("a", 3, "b"), ⟨"v", 0⟩)] := by
  have h := page_cache_eviction.2.1 2
    [(("a", 1, "b"), "t", 0), (("a", 2, "b"), "u", 0), (("a", 3, "b"), "v", 0)]
    (by decide)
  rw [h]
  decide

/-- C2. If a cached collection exists and its age is strictly below the TTL,
`get_cached_collection` returns the identical cached collection, leaves the
cache state untouched, and issues zero remote requests — neither
`get_root_hash` nor `get_meta_items` is invoked. -/
theorem ttl_short_circuit (client : Client) (ttl now : Int) (s : CacheState)
    (coll : Collection) (hcoll : s.cachedCollection = some coll)
    (hfresh : now - s.cacheTimestamp < ttl) :
    get_cached_collection client ttl now s = ⟨s, coll, 0, 0⟩ := by
  simp [get_cached_collection, hcoll, hfresh]

/-- Witness for C2 at a concrete fresh cache. -/
theorem ttl_short_circuit_witness :
    get_cached_collection ⟨true, .ok "h2", fun _ => []⟩ 60 10
        ⟨some ["a"], some "h1", 0⟩ =
      ⟨⟨some ["a"], some "h1", 0⟩, ["a"], 0, 0⟩ :=
  ttl_short_circuit _ 60 10 _ ["a"] rfl (by decide)

/-- C3. If the TTL has elapsed but the root-hash probe returns the hash
stored in the cache, exactly one remote request (the `get_root_hash` probe)
is issued, no `get_meta_items` re-fetch happens, the cached document list
is returned unchanged, and the only state change is the refreshed
timestamp. -/
theorem hash_stable_refresh (client : Client) (ttl now : Int) (s : CacheState)
    (coll : Collection) (h : String)
    (hcoll : s.cachedCollection = some coll)
    (hstale : ¬ now - s.cacheTimestamp < ttl)
    (hcloud : client.hasGetRootHash = true)
    (hprobe : client.rootHash = .ok h)
    (hmatch : s.cachedRootHash = some h) :
    get_cached_collection client ttl now s =
      ⟨{ s with cacheTimestamp := now }, coll, 1, 0⟩ := by
  simp [get_cached_collection, hcoll, hstale, hcloud, hprobe, hmatch]

/-- Witness for C3 at a concrete stale-but-hash-stable cache. -/
theorem hash_stable_refresh_witness :
    get_cached_collection ⟨true, .ok "h1", fun _ => []⟩ 60 100
        ⟨some ["a"], some "h1", 0⟩ =
      ⟨⟨some ["a"], some "h1", 100⟩, ["a"], 1, 0⟩ :=
  hash_stable_refresh _ 60 100 _ ["a"] "h1" rfl (by decide) rfl rfl rfl

/-- C10. When the cache cannot short-circuit and the root-hash probe
raises, `get_cached_collection` falls back to a full `get_meta_items` fetch
(called without a `root_hash` argument), stores the fetched collection and
refreshes the timestamp, but leaves the stored cached root hash unchanged:
that field is only written on the hash-changed path, so a later probe is
compared against the pre-fallback hash. -/
theorem probe_failure_fallback (client : Client) (ttl now : Int)
    (s : CacheState)
    (hmiss : ¬ (s.cachedCollection.isSome ∧ now - s.cacheTimestamp < ttl))
    (hcloud : client.hasGetRootHash = true)
    (hfail : client.rootHash = .error ()) :
    get_cached_collection client ttl now s =
      ⟨{ s with
          cachedCollection := some (client.metaItems none)
          cacheTimestamp := now },
        client.metaItems none, 1, 1⟩ ∧
    (get_cached_collection client ttl now s).state.cachedRootHash =
      s.cachedRootHash := by
  constructor
  · simp only [get_cached_collection, hcloud, hfail]
    rw [dif_neg hmiss]
    simp
  · simp only [get_cached_collection, hcloud, hfail]
    rw [dif_neg hmiss]
    simp

/-- Witness for C10 at a concrete expired cache whose probe fails. -/
theorem probe_failure_fallback_witness :
    get_cached_collection ⟨true, .error (), fun _ => ["b"]⟩ 60 100
        ⟨some ["a"], some "h1", 0⟩ =
      ⟨⟨some ["b"], some "h1", 100⟩, ["b"], 1, 1⟩ ∧
    (get_cached_collection ⟨true, .error (), fun _ => ["b"]⟩ 60 100
        ⟨some ["a"], some "h1", 0⟩).state.cachedRootHash = some "h1" :=
  probe_failure_fallback _ 60 100 _ (by decide) rfl rfl

/-- C6. Extraction-cache satisfiability is monotone in the stored
`include_ocr` flag: within the freshness window, an entry stored with
`include_ocr = true` also satisfies a non-OCR request, while an entry
stored with `include_ocr = false` never satisfies an OCR request. -/
theorem ocr_cache_monotone (now : Int) (cache : ExtractionCache)
    (doc_id : String) (e : ExtractionCacheEntry)
    (hlook : dictGet cache doc_id = some e)
    (hvalid : is_cache_valid now e.timestamp = true) :
    (e.include_ocr = true →
      get_cached_ocr_result now cache doc_id false none = some e.result) ∧
    (e.include_ocr = false →
      get_cached_ocr_result now cache doc_id true none = none) := by
  constructor
  · intro hocr
    simp [get_cached_ocr_result, hlook, hocr, hvalid]
  · intro hocr
    simp [get_cached_ocr_result, hlook, hocr, hvalid]

/-- Witness for C6 at two concrete one-entry caches. -/
theorem ocr_cache_monotone_witness :
    get_cached_ocr_result 10 [("d", ⟨⟨["t"], [], [], none⟩, true, 0⟩)]
        "d" false none = some ⟨["t"], [], [], none⟩ ∧
    get_cached_ocr_result 10 [("d", ⟨⟨["t"], [], [], none⟩, false, 0⟩)]
        "d" true none = none :=
  ⟨(ocr_cache_monotone 10 [("d", ⟨⟨["t"], [], [], none⟩, true, 0⟩)] "d"
      ⟨⟨["t"], [], [], none⟩, true, 0⟩ (by decide) (by decide)).1 rfl,
   (ocr_cache_monotone 10 [("d", ⟨⟨["t"], [], [], none⟩, false, 0⟩)] "d"
      ⟨⟨["t"], [], [], none⟩, false, 0⟩ (by decide) (by decide)).2 rfl⟩

/-- C7. `get_root_hash` turns every malformed root response into a raised
`RuntimeError` instead of returning: an empty or whitespace-only body (with
a message referencing credential expiry and re-authentication), a body that
is not parseable as JSON, and a parsed object lacking the `"hash"` field. -/
theorem root_hash_protocol_errors :
    (∀ text json, pyStrip text = "" →
      get_root_hash text json = .error emptyResponseMsg ∧
      mentionsExpiry emptyResponseMsg = true) ∧
    (∀ text, pyStrip text ≠ "" →
      get_root_hash text .decodeError = .error invalidJsonMsg) ∧
    (∀ text fields, pyStrip text ≠ "" →
      fields.find? (fun kv => kv.1 == "hash") = none →
      get_root_hash text (.object fields) = .error missingHashMsg) := by
  refine ⟨fun text json hempty => ⟨?_, by decide⟩,
    fun text hne => ?_, fun text fields hne hhash => ?_⟩
  · simp [get_root_hash, hempty]
  · simp [get_root_hash, hne]
  · simp [get_root_hash, hne, hhash]

/-- Witness for C7: the empty body, an unparseable body, and a parsed
object without a hash field, each at concrete inputs. -/
theorem root_hash_protocol_errors_witness :
    (get_root_hash "" (.object [("hash", "x")]) = .error emptyResponseMsg ∧
      mentionsExpiry emptyResponseMsg = true) ∧
    get_root_hash "garbage" .decodeError = .error invalidJsonMsg ∧
    get_root_hash "[1]" (.object [("generation", "7")]) =
      .error missingHashMsg :=
  ⟨root_hash_protocol_errors.1 "" _ rfl,
   root_hash_protocol_errors.2.1 "garbage" (by decide),
   root_hash_protocol_errors.2.2 "[1]" _ (by decide) rfl⟩

/-- C8. `parse_index` skips the first (schema-version) line, silently drops
every line with fewer than 5 colon-delimited fields or with non-integer
`subfileCount`/`sizeBytes` fields, and yields one entry per well-formed
line; on the spec's 3-line blob whose second line has only 4 fields it
returns exactly the entry of line 3. -/
theorem parse_index_tolerant :
    (∀ content, parse_index content =
      ((pySplit (pyStrip content) '\n').drop 1).filterMap parseIndexLine) ∧
    (∀ line, (pySplit line ':').length < 5 → parseIndexLine line = none) ∧
    (∀ line, pyInt ((pySplit line ':').getD 3 "") = none →
      parseIndexLine line = none) ∧
    (∀ line, pyInt ((pySplit line ':').getD 4 "") = none →
      parseIndexLine line = none) ∧
    (∀ line sub size, (pySplit line ':').length ≥ 5 →
      pyInt ((pySplit line ':').getD 3 "") = some sub →
      pyInt ((pySplit line ':').getD 4 "") = some size →
      parseIndexLine line = some
        ⟨(pySplit line ':').getD 0 "", (pySplit line ':').getD 1 "",
         (pySplit line ':').getD 2 "", sub, size⟩) ∧
    parse_index "3\na:b:c:d\nh1:doc:id1:2:100" =
      [⟨"h1", "doc", "id1", 2, 100⟩] := by
  refine ⟨fun content => rfl, fun line hlen => ?_, fun line h3 => ?_,
    fun line h4 => ?_, fun line sub size hlen h3 h4 => ?_, by decide⟩
  · simp only [parseIndexLine]
    rw [if_neg (by omega)]
  · by_cases hlen : (pySplit line ':').length ≥ 5
    · simp only [parseIndexLine, List.getD] at h3 ⊢
      rw [if_pos hlen, h3]
    · simp only [parseIndexLine]
      rw [if_neg hlen]
  · by_cases hlen : (pySplit line ':').length ≥ 5
    · simp only [parseIndexLine, List.getD] at h4 ⊢
      rw [if_pos hlen, h4]
      split <;> simp_all
    · simp only [parseIndexLine]
      rw [if_neg hlen]
  · simp only [parseIndexLine, List.getD] at h3 h4 ⊢
    rw [if_pos hlen, h3, h4]

/-! Helper lemmas about the search dedup loop. -/

theorem find?_append_of_forall_false {α : Type} (p : α → Bool)
    (l1 l2 : List α) (h : ∀ a ∈ l1, p a = false) :
    (l1 ++ l2).find? p = l2.find? p := by
  induction l1 with
  | nil => rfl
  | cons a as ih =>
    simp only [List.cons_append, List.find?]
    rw [h a (by simp)]
    exact ih (fun a ha => h a (by simp [ha]))

theorem searchDedupLoop_length_le (limit : Nat) :
    ∀ rows seen results, results.length < limit →
      (searchDedupLoop limit rows seen results).length ≤ limit := by
  intro rows
  induction rows with
  | nil =>
    intro seen results h
    simpa [searchDedupLoop] using Nat.le_of_lt h
  | cons row rest ih =>
    intro seen results h
    simp only [searchDedupLoop]
    by_cases hseen : seen.contains row.doc_id = true
    · rw [if_pos hseen]
      exact ih _ _ h
    · rw [if_neg hseen]
      by_cases hlen : (results ++ [row]).length ≥ limit
      · rw [if_pos hlen]
        simp only [List.length_append, List.length_singleton]
        omega
      · rw [if_neg hlen]
        exact ih _ _ (by simp at hlen ⊢; omega)

theorem searchDedupLoop_nodup (limit : Nat) :
    ∀ rows seen results,
      results.Pairwise (fun a b => a.doc_id ≠ b.doc_id) →
      (∀ r ∈ results, r.doc_id ∈ seen) →
      (searchDedupLoop limit rows seen results).Pairwise
        (fun a b => a.doc_id ≠ b.doc_id) := by
  intro rows
  induction rows with
  | nil =>
    intro seen results hpair _
    simpa [searchDedupLoop] using hpair
  | cons row rest ih =>
    intro seen results hpair hseenmem
    simp only [searchDedupLoop]
    by_cases hseen : seen.contains row.doc_id = true
    · rw [if_pos hseen]
      exact ih _ _ hpair hseenmem
    · rw [if_neg hseen]
      have hrownotin : row.doc_id ∉ seen := by
        simpa using hseen
      have hpair2 : (results ++ [row]).Pairwise (fun a b => a.doc_id ≠ b.doc_id) := by
        rw [List.pairwise_append]
        refine ⟨hpair, by simp, ?_⟩
        intro a ha b hb
        simp only [List.mem_singleton] at hb
        subst hb
        intro hcontra
        exact hrownotin (hcontra ▸ hseenmem a ha)
      by_cases hlen : (results ++ [row]).length ≥ limit
      · rw [if_pos hlen]
        exact hpair2
      · rw [if_neg hlen]
        refine ih _ _ hpair2 ?_
        intro r hr
        rcases List.mem_append.1 hr with hl | hl
        · exact List.mem_cons_of_mem _ (hseenmem r hl)
        · simp only [List.mem_singleton] at hl
          subst hl
          exact List.mem_cons_self _ _

theorem searchDedupLoop_first_hit (limit : Nat) (cands : List SearchRow) :
    ∀ rows seen results pre,
      cands = pre ++ rows →
      (∀ c ∈ pre, c.doc_id ∈ seen) →
      (∀ r ∈ results, cands.find? (fun c => c.doc_id == r.doc_id) = some r) →
      ∀ r ∈ searchDedupLoop limit rows seen results,
        cands.find? (fun c => c.doc_id == r.doc_id) = some r := by
  intro rows
  induction rows with
  | nil =>
    intro seen results pre _ _ hres r hr
    exact hres r (by simpa [searchDedupLoop] using hr)
  | cons row rest ih =>
    intro seen results pre hpre hpreseen hres
    simp only [searchDedupLoop]
    by_cases hseen : seen.contains row.doc_id = true
    · rw [if_pos hseen]
      refine ih _ _ (pre ++ [row]) (by simp [hpre]) ?_ hres
      intro c hc
      rcases List.mem_append.1 hc with hl | hl
      · exact hpreseen c hl
      · simp only [List.mem_singleton] at hl
        subst hl
        simpa using hseen
    · rw [if_neg hseen]
      have hrownotin : row.doc_id ∉ seen := by simpa using hseen
      have hfound : cands.find? (fun c => c.doc_id == row.doc_id) = some row := by
        rw [hpre, find?_append_of_forall_false]
        · simp [List.find?]
        · intro c hc
          have : c.doc_id ≠ row.doc_id := by
            intro hcontra
            exact hrownotin (hcontra ▸ hpreseen c hc)
          simpa using this
      have hres2 : ∀ r ∈ results ++ [row],
          cands.find? (fun c => c.doc_id == r.doc_id) = some r := by
        intro r hr
        rcases List.mem_append.1 hr with hl | hl
        · exact hres r hl
        · simp only [List.mem_singleton] at hl
          subst hl
          exact hfound
      by_cases hlen : (results ++ [row]).length ≥ limit
      · rw [if_pos hlen]
        exact hres2
      · rw [if_neg hlen]
        refine ih _ _ (pre ++ [row]) (by simp [hpre]) ?_ hres2
        intro c hc
        rcases List.mem_append.1 hc with hl | hl
        · exact List.mem_cons_of_mem _ (hpreseen c hl)
        · simp only [List.mem_singleton] at hl
          subst hl
          exact List.mem_cons_self _ _

/-- C5. `search` fetches at most `5 * limit` ranked candidates, returns at
most `limit` results with pairwise-distinct `doc_id`s, and each returned
row is the first (best-ranked) candidate with its `doc_id`; in particular
two candidate rows of `doc-1` that both match collapse to the single
best-ranked result for `doc-1`. -/
theorem search_dedup (ranked : List SearchRow) (limit : Nat) :
    (ranked.take (limit * 5)).length ≤ limit * 5 ∧
    (search ranked limit).length ≤ limit ∧
    (search ranked limit).Pairwise (fun a b => a.doc_id ≠ b.doc_id) ∧
    (∀ r ∈ search ranked limit,
      (ranked.take (limit * 5)).find? (fun c => c.doc_id == r.doc_id) =
        some r) ∧
    (∀ r1 r2 : SearchRow, r1.doc_id = "doc-1" → r2.doc_id = "doc-1" →
      search [r1, r2] 10 = [r1]) := by
  refine ⟨List.length_take_le _ _, ?_, ?_, ?_, ?_⟩
  · rcases Nat.eq_zero_or_pos limit with hl | hl
    · subst hl
      simp [search, searchDedupLoop]
    · exact searchDedupLoop_length_le limit _ _ _ (by simpa using hl)
  · exact searchDedupLoop_nodup limit _ _ _ (by simp) (by simp)
  · exact searchDedupLoop_first_hit limit _ _ _ _ [] (by simp) (by simp)
      (by simp)
  · intro r1 r2 h1 h2
    simp [search, searchDedupLoop, List.take, h1, h2]

/-- Witness for C5: two matching rows of the same document yield the single
best-ranked result. -/
theorem search_dedup_witness :
    search [⟨"doc-1", none, none, none, none, "s1", -2⟩,
            ⟨"doc-1", none, none, none, none, "s2", -1⟩] 10 =
      [⟨"doc-1", none, none, none, none, "s1", -2⟩] :=
  (search_dedup [] 0).2.2.2.2 _ _ rfl rfl

/-- Witness for C8 at concrete malformed and well-formed lines. -/
theorem parse_index_tolerant_witness :
    parseIndexLine "a:b:c:d" = none ∧
    parseIndexLine "h:t:i:x:5" = none ∧
    parseIndexLine "h:t:i:3:x" = none ∧
    parseIndexLine "h1:doc:id1:2:100" = some ⟨"h1", "doc", "id1", 2, 100⟩ :=
  ⟨parse_index_tolerant.2.1 "a:b:c:d" (by decide),
   parse_index_tolerant.2.2.1 "h:t:i:x:5" (by decide),
   parse_index_tolerant.2.2.2.1 "h:t:i:3:x" (by decide),
   parse_index_tolerant.2.2.2.2.1 "h1:doc:id1:2:100" 2 100 (by decide)
     (by decide) (by decide)⟩

/-! Helper lemmas about the pages/FTS invariant. -/

theorem pageKeyMatch_iff (d : String) (pn : Int) (ct : String) (p : PageRow) :
    pageKeyMatch d pn ct p = true ↔ pageKey p = (d, pn, ct) := by
  simp [pageKeyMatch, pageKey, Prod.ext_iff, and_assoc]

theorem pairwise_key_eq {l : List PageRow}
    (hl : l.Pairwise (fun a b => pageKey a ≠ pageKey b)) {p q : PageRow}
    (hp : p ∈ l) (hq : q ∈ l) (hk : pageKey p = pageKey q) : p = q := by
  by_contra hne
  exact List.Pairwise.forall (fun a b hab => (hab ∘ Eq.symm)) hl hp hq hne hk

theorem pairwise_rowid_eq {l : List PageRow}
    (hl : l.Pairwise (fun a b => a.rowid ≠ b.rowid)) {p q : PageRow}
    (hp : p ∈ l) (hq : q ∈ l) (hk : p.rowid = q.rowid) : p = q := by
  by_contra hne
  exact List.Pairwise.forall (fun a b hab => (hab ∘ Eq.symm)) hl hp hq hne hk

theorem IndexInv.empty : IndexInv IndexState.empty :=
  ⟨List.Pairwise.nil, List.Pairwise.nil, by simp [IndexState.empty],
   by simp [IndexState.empty], by simp [IndexState.empty], List.Pairwise.nil⟩

theorem upsert_page_inv (s : IndexState) (d : String) (pn : Int) (c ct : String)
    (be : Option String) (now : String) (hInv : IndexInv s) :
    IndexInv (upsert_page s d pn c ct be now) := by
  obtain ⟨hkeys, hrows, hbound, hpf, hfp, hftsU⟩ := hInv
  cases hfind : s.pages.find? (pageKeyMatch d pn ct) with
  | none =>
    have hnomatch : ∀ p ∈ s.pages, ¬ pageKeyMatch d pn ct p = true :=
      List.find?_eq_none.mp hfind
    simp only [upsert_page, hfind]
    refine ⟨?_, ?_, ?_, ?_, ?_, ?_⟩
    · rw [List.pairwise_append]
      refine ⟨hkeys, by simp, ?_⟩
      intro a ha b hb
      simp only [List.mem_singleton] at hb
      subst hb
      intro hcontra
      exact hnomatch a ha ((pageKeyMatch_iff d pn ct a).mpr hcontra)
    · rw [List.pairwise_append]
      refine ⟨hrows, by simp, ?_⟩
      intro a ha b hb
      simp only [List.mem_singleton] at hb
      subst hb
      exact Nat.ne_of_lt (hbound a ha)
    · intro p hp
      rcases List.mem_append.1 hp with hin | hin
      · exact Nat.lt_succ_of_lt (hbound p hin)
      · simp only [List.mem_singleton] at hin
        subst hin
        exact Nat.lt_succ_self _
    · intro p hp
      rcases List.mem_append.1 hp with hin | hin
      · obtain ⟨e, he, h1, h2, h3⟩ := hpf p hin
        exact ⟨e, List.mem_append_left _ he, h1, h2, h3⟩
      · simp only [List.mem_singleton] at hin
        subst hin
        exact ⟨⟨s.nextRowid, d, c⟩, List.mem_append_right _ (by simp),
          rfl, rfl, rfl⟩
    · intro e he
      rcases List.mem_append.1 he with hin | hin
      · obtain ⟨p, hp, h1, h2, h3⟩ := hfp e hin
        exact ⟨p, List.mem_append_left _ hp, h1, h2, h3⟩
      · simp only [List.mem_singleton] at hin
        subst hin
        exact ⟨⟨s.nextRowid, d, pn, ct, c, be, now⟩,
          List.mem_append_right _ (by simp), rfl, rfl, rfl⟩
    · rw [List.pairwise_append]
      refine ⟨hftsU, by simp, ?_⟩
      intro a ha b hb
      simp only [List.mem_singleton] at hb
      subst hb
      obtain ⟨p, hp, h1, _, _⟩ := hfp a ha
      have hlt := hbound p hp
      simp only []
      omega
  | some ex =>
    have hex_mem : ex ∈ s.pages := List.mem_of_find?_eq_some hfind
    have hex_match : pageKeyMatch d pn ct ex = true := List.find?_some hfind
    have hex_key : pageKey ex = (d, pn, ct) :=
      (pageKeyMatch_iff d pn ct ex).mp hex_match
    have hex_doc : ex.doc_id = d := congrArg Prod.fst hex_key
    have huniq : ∀ p ∈ s.pages, pageKeyMatch d pn ct p = true → p = ex := by
      intro p hp hm
      exact pairwise_key_eq hkeys hp hex_mem
        (((pageKeyMatch_iff d pn ct p).mp hm).trans hex_key.symm)
    have hkeep : ∀ p : PageRow,
        pageKey (if pageKeyMatch d pn ct p = true then
          { p with content := c, ocr_backend := be, indexed_at := now }
        else p) = pageKey p ∧
        (if pageKeyMatch d pn ct p = true then
          { p with content := c, ocr_backend := be, indexed_at := now }
        else p).rowid = p.rowid := by
      intro p
      by_cases hm : pageKeyMatch d pn ct p = true <;> simp [hm, pageKey]
    simp only [upsert_page, hfind]
    refine ⟨?_, ?_, ?_, ?_, ?_, ?_⟩
    · rw [List.pairwise_map]
      exact hkeys.imp (fun {a b} hab => by
        rw [(hkeep a).1, (hkeep b).1]
        exact hab)
    · rw [List.pairwise_map]
      exact hrows.imp (fun {a b} hab => by
        rw [(hkeep a).2, (hkeep b).2]
        exact hab)
    · intro p' hp'
      rcases List.mem_map.1 hp' with ⟨p, hp, hup⟩
      subst hup
      rw [(hkeep p).2]
      exact hbound p hp
    · intro p' hp'
      rcases List.mem_map.1 hp' with ⟨p, hp, hup⟩
      subst hup
      by_cases hm : pageKeyMatch d pn ct p = true
      · have hpex := huniq p hp hm
        refine ⟨⟨ex.rowid, d, c⟩, List.mem_append_right _ (by simp), ?_, ?_, ?_⟩
        · simp [hm, hpex, hex_match]
        · simp [hm, hpex, hex_match, hex_doc]
        · simp [hm, hpex, hex_match]
      · obtain ⟨e, he, h1, h2, h3⟩ := hpf p hp
        have hne : e.rowid ≠ ex.rowid := by
          intro hcontra
          have : p = ex := pairwise_rowid_eq hrows hp hex_mem (h1 ▸ hcontra)
          subst this
          exact hm hex_match
        refine ⟨e, List.mem_append_left _ (List.mem_filter.mpr ⟨he, ?_⟩),
          ?_, ?_, ?_⟩
        · simpa using hne
        · simp [hm, h1]
        · simp [hm, h2]
        · simp [hm, h3]
    · intro e he
      rcases List.mem_append.1 he with hin | hin
      · obtain ⟨he2, hne⟩ := List.mem_filter.mp hin
        have hne2 : e.rowid ≠ ex.rowid := by simpa using hne
        obtain ⟨p, hp, h1, h2, h3⟩ := hfp e he2
        have hm : ¬ pageKeyMatch d pn ct p = true := by
          intro hm
          have := huniq p hp hm
          subst this
          exact hne2 h1.symm
        refine ⟨_, List.mem_map_of_mem _ hp, ?_, ?_, ?_⟩
        · simp [hm, h1]
        · simp [hm, h2]
        · simp [hm, h3]
      · simp only [List.mem_singleton] at hin
        subst hin
        refine ⟨_, List.mem_map_of_mem _ hex_mem, ?_, ?_, ?_⟩
        · simp [hex_match]
        · simp [hex_match, hex_doc]
        · simp [hex_match]
    · rw [List.pairwise_append]
      refine ⟨List.Pairwise.filter _ hftsU, by simp, ?_⟩
      intro a ha b hb
      simp only [List.mem_singleton] at hb
      subst hb
      have := (List.mem_filter.mp ha).2
      simpa using this

theorem store_extraction_inv (s : IndexState) (d : String)
    (r : ExtractionResult) (now : String) (hInv : IndexInv s) :
    IndexInv (store_extraction_result s d r now) := by
  have hfold : ∀ (parts : List (Int × String × String × Option String))
      (st : IndexState), IndexInv st →
      IndexInv (parts.foldl (fun st part =>
        upsert_page st d part.1 part.2.2.1 part.2.1 part.2.2.2 now) st) := by
    intro parts
    induction parts with
    | nil => exact fun st h => h
    | cons part rest ih =>
      intro st h
      exact ih _ (upsert_page_inv _ _ _ _ _ _ _ h)
  unfold store_extraction_result
  by_cases hp : (extraction_parts r).isEmpty
  · rw [if_pos hp]
    exact hInv
  · rw [if_neg hp]
    exact hfold _ _ hInv

/-- C4. Any sequence of `upsert_page` and `store_extraction_result` calls,
starting from an empty database, maintains the invariant: at most one
`pages` row per `(doc_id, page_number, content_type)` key, and `pages_fts`
holds exactly one entry per `pages` row — keyed by that row's rowid with
that row's current content — with no duplicate and no orphaned entry. -/
theorem pages_fts_sync (ops : List IndexOp) :
    IndexInv (ops.foldl applyIndexOp IndexState.empty) := by
  suffices h : ∀ s, IndexInv s → IndexInv (ops.foldl applyIndexOp s) from
    h _ IndexInv.empty
  induction ops with
  | nil => exact fun s h => h
  | cons op rest ih =>
    intro s h
    refine ih _ ?_
    cases op with
    | upsertPage d pn c ct be now => exact upsert_page_inv s d pn c ct be now h
    | storeExtraction d r now => exact store_extraction_inv s d r now h

/-- C1. `needs_reindex` returns `true` and changes nothing for an unseen
document; for a known document whose stored hash differs it deletes every
page row and (given the pages/FTS invariant) every full-text entry of that
document — leaving the `documents` table intact — and returns `true`; on a
hash match it returns `false` with the whole database unchanged. In the
spec's scenario, after `upsert_document("doc-1", "h1")` and
`upsert_page("doc-1", 1, "old", "typed_text")`, the call
`needs_reindex("doc-1", "h2")` returns `true` and afterwards no page row
remains and `get_page_ocr("doc-1", 1)` returns nothing. -/
theorem needs_reindex_spec :
    (∀ s doc h, get_document_hash s doc = none →
      needs_reindex s doc h = (true, s)) ∧
    (∀ s doc h stored, IndexInv s →
      get_document_hash s doc = some stored → stored ≠ h →
      (needs_reindex s doc h).1 = true ∧
      (needs_reindex s doc h).2.pages =
        s.pages.filter (fun p => p.doc_id != doc) ∧
      (∀ p ∈ (needs_reindex s doc h).2.pages, p.doc_id ≠ doc) ∧
      (∀ e ∈ (needs_reindex s doc h).2.pages_fts, e.doc_id ≠ doc) ∧
      (needs_reindex s doc h).2.documents = s.documents) ∧
    (∀ s doc h, get_document_hash s doc = some h →
      needs_reindex s doc h = (false, s)) ∧
    ((needs_reindex reindexScenarioState "doc-1" "h2").1 = true ∧
     (needs_reindex reindexScenarioState "doc-1" "h2").2.pages = [] ∧
     (needs_reindex reindexScenarioState "doc-1" "h2").2.pages_fts = [] ∧
     get_page_ocr (needs_reindex reindexScenarioState "doc-1" "h2").2
       "doc-1" 1 "sampling" = none) := by
  refine ⟨fun s doc h hnone => ?_, fun s doc h stored hInv hsome hne => ?_,
    fun s doc h hsome => ?_, by decide⟩
  · simp [needs_reindex, hnone]
  · obtain ⟨_, _, _, _, hfp, _⟩ := hInv
    have hres : needs_reindex s doc h =
        (true,
          { s with
              pages_fts := s.pages_fts.filter (fun e =>
                !(s.pages.any (fun p => p.doc_id == doc && p.rowid == e.rowid)))
              pages := s.pages.filter (fun p => p.doc_id != doc) }) := by
      simp [needs_reindex, hsome, hne]
    rw [hres]
    refine ⟨rfl, rfl, ?_, ?_, rfl⟩
    · intro p hp
      have := (List.mem_filter.mp hp).2
      simpa using this
    · intro e he
      obtain ⟨he2, hpred⟩ := List.mem_filter.mp he
      rw [Bool.not_eq_true', List.any_eq_false] at hpred
      obtain ⟨p, hp, h1, h2, _⟩ := hfp e he2
      intro hcontra
      exact hpred p hp (by simp [h1, h2 ▸ hcontra])
  · simp [needs_reindex, hsome]

/-- Witness for C1: the unseen-document, hash-mismatch and hash-match cases
at concrete databases. -/
theorem needs_reindex_spec_witness :
    needs_reindex IndexState.empty "doc-1" "h1" = (true, IndexState.empty) ∧
    ((needs_reindex reindexScenarioState "doc-1" "h2").1 = true ∧
      (needs_reindex reindexScenarioState "doc-1" "h2").2.documents =
        reindexScenarioState.documents) ∧
    needs_reindex reindexScenarioState "doc-1" "h1" =
      (false, reindexScenarioState) :=
  ⟨needs_reindex_spec.1 IndexState.empty "doc-1" "h1" rfl,
   ⟨(needs_reindex_spec.2.1 reindexScenarioState "doc-1" "h2" "h1"
       (by decide) (by decide) (by decide)).1,
    (needs_reindex_spec.2.1 reindexScenarioState "doc-1" "h2" "h1"
       (by decide) (by decide) (by decide)).2.2.2.2⟩,
   needs_reindex_spec.2.2.1 reindexScenarioState "doc-1" "h1" (by decide)⟩

end RMmcp
